import Mathlib

/-!
Verification of the mzML reader (`pyteomics/mzml.py`).

The development is a shallow embedding of the module:

* text is `List Char`, byte buffers are `List Nat` (each entry `< 256`),
  floating-point numbers are their IEEE bit patterns (`Nat` below `2^32` or
  `2^64`), so "bit-for-bit" array identity is plain list equality;
* Python dictionaries are insertion-ordered association lists
  (`Info := List (String × Value)`), with update-in-place / append-at-end
  semantics mirrored by `upsert`;
* fallible operations return `Except PyError _`, where `PyError` names the
  Python exception classes the code can raise (`schemaError` is listed
  because the design documentation mentions a dedicated `SchemaError`;
  the module itself never defines or raises one);
* the generic XML collaborator `xml.XML` (a different module, not part of
  the sources verified here) is modelled from the design document where
  needed; each such definition carries a `Modelled from the spec:` note.
-/

set_option maxRecDepth 8000

/-- The two numeric element types recognised by `_get_info_smart`
(`'32-bit float': 'f'`, `'64-bit float': 'd'`). -/
inductive DType where
  | f32
  | f64
deriving DecidableEq

/-- Element width in bytes of a dtype (numpy itemsize: 4 for `'f'`, 8 for `'d'`). -/
def DType.width : DType → Nat
  | .f32 => 4
  | .f64 => 8

/-- Python exception classes reachable from the modelled code, plus
`schemaError`: the design document's taxonomy names a dedicated
`SchemaError`, but no such class exists anywhere in the module, so no code
path below ever produces it.  `notFound` stands for the design document's
`NotFound` lookup failure of the (modelled) base parser. -/
inductive PyError where
  | keyError
  | valueError
  | typeError
  | attributeError
  | unboundLocalError
  | osError
  | zlibError
  | schemaError
  | notFound
deriving DecidableEq

/-- Values stored in the mapping produced by the XML-to-dict collaborator:
strings, integers (after `ms level` coercion), decoded numpy arrays
(dtype plus per-element bit patterns), lists (e.g. the `'name'` list),
and nested mappings. -/
inductive Value where
  | s (v : String)
  | i (v : Int)
  | arr (dt : DType) (bits : List Nat)
  | lst (vs : List Value)
  | dct (entries : List (String × Value))

/-- A Python dict as an insertion-ordered association list. -/
abbrev Info := List (String × Value)

/-- `k in info` for a Python dict. -/
def hasKey (info : Info) (k : String) : Bool :=
  info.any (fun p => p.1 == k)

/-- `info[k]` (first binding wins; keys are unique in dicts built by the code). -/
def lookupV (info : Info) (k : String) : Option Value :=
  (info.find? (fun p => p.1 == k)).map (fun p => p.2)

/-- `del info[k]` / `info.pop(k, default)`: drop the binding of `k`,
preserving the order of the rest. -/
def eraseK (info : Info) (k : String) : Info :=
  info.filter (fun p => p.1 != k)

/-- `info[k] = v`: update in place when `k` is present (Python dicts keep the
original insertion position), append at the end otherwise. -/
def upsert (info : Info) (k : String) (v : Value) : Info :=
  match info with
  | [] => [(k, v)]
  | (k', v') :: rest =>
    if k' == k then (k, v) :: rest else (k', v') :: upsert rest k v

/-- Generic `d[k] = v` for the other dictionaries in the module
(id → offset maps and the offset index itself). -/
def upsertA {κ β : Type} [BEq κ] (l : List (κ × β)) (k : κ) (v : β) : List (κ × β) :=
  match l with
  | [] => [(k, v)]
  | (k', v') :: rest =>
    if k' == k then (k, v) :: rest else (k', v') :: upsertA rest k v

/-- `d[k]` as an option, for the generic dictionaries. -/
def lookupA {κ β : Type} [BEq κ] (l : List (κ × β)) (k : κ) : Option β :=
  (l.find? (fun p => p.1 == k)).map (fun p => p.2)

/-- Bit pattern of a floating-point zero: sign bit free, all other bits zero
(`0.0` and `-0.0` are the only falsy floats). -/
def isZeroBits (dt : DType) (x : Nat) : Bool :=
  x % 2 ^ (8 * dt.width - 1) == 0

/-- Python truthiness of a value.  Numpy arrays are special: an empty array
is falsy, a one-element array has the truth value of its element, and asking
for the truth value of a longer array raises `ValueError`. -/
def truthy : Value → Except PyError Bool
  | .s v => .ok (v ≠ "")
  | .i v => .ok (v ≠ 0)
  | .arr dt bits =>
    match bits with
    | [] => .ok false
    | [x] => .ok (!isZeroBits dt x)
    | _ :: _ :: _ => .error .valueError
  | .lst vs => .ok (!vs.isEmpty)
  | .dct entries => .ok (!entries.isEmpty)

/-- Python `t in v` for a string `t`: list membership compares each element
with `t` (only string elements can be equal to it), `in` on a string is a
substring test, `in` on a dict is key membership, `in` on an int raises
`TypeError`, and `t in nparray` elementwise-compares a string against
floats, which is false. -/
def containsStr (v : Value) (t : String) : Except PyError Bool :=
  match v with
  | .lst vs => .ok (vs.any (fun x => match x with | .s u => u == t | _ => false))
  | .s u => .ok ((u.toList.tails).any (fun suf => t.toList.isPrefixOf suf))
  | .dct entries => .ok (entries.any (fun p => p.1 == t))
  | .i _ => .error .typeError
  | .arr _ _ => .ok false

/-- `v.remove(t)`: lists drop the first element equal to `t` (raising
`ValueError` when no element matches); strings, ints, dicts and numpy
arrays have no `remove` method, so `AttributeError`. -/
def removeStr (v : Value) (t : String) : Except PyError Value :=
  match v with
  | .lst vs =>
    let rec go : List Value → Option (List Value)
      | [] => none
      | x :: rest =>
        match x with
        | .s u => if u == t then some rest else (go rest).map (x :: ·)
        | _ => (go rest).map (x :: ·)
    match go vs with
    | some vs' => .ok (.lst vs')
    | none => .error .valueError
  | _ => .error .attributeError

/-- Python `int(v)`: ints are returned unchanged, strings are parsed as a
decimal integer (optional sign; `ValueError` on anything else), other
values raise `TypeError`. -/
def toIntV : Value → Except PyError Int
  | .i v => .ok v
  | .s v =>
    let cs := v.toList
    let (sign, ds) :=
      match cs with
      | '-' :: rest => (true, rest)
      | '+' :: rest => (false, rest)
      | _ => (false, cs)
    if ds ≠ [] ∧ ds.all Char.isDigit then
      let n : Nat := ds.foldl (fun a c => a * 10 + (c.toNat - 48)) 0
      .ok (if sign then -(n : Int) else (n : Int))
    else .error .valueError
  | _ => .error .typeError

/-! ### Base64 (`base64.b64decode` and the inverse encoding direction) -/

/-- The standard base64 alphabet, RFC 4648. -/
def b64Table : List Char :=
  "ABCDEFGHIJKLMNOPQRSTUVWXYZabcdefghijklmnopqrstuvwxyz0123456789+/".toList

/-- Character of a sextet value. -/
def b64Char (n : Nat) : Char :=
  b64Table.getD n 'A'

/-- Sextet value of an alphabet character (`none` for non-alphabet input). -/
def b64Val (c : Char) : Option Nat :=
  b64Table.findIdx? (fun x => x == c)

/-- Alphabet characters and the pad character: everything else is discarded
by `b64decode` before decoding. -/
def isB64OrPad (c : Char) : Bool :=
  b64Table.contains c || c == '='

/-- Sextet value as an `Except` (a chunk containing a non-alphabet character
where a value is required is malformed input, `binascii.Error`, which is a
`ValueError`). -/
def b64ValE (c : Char) : Except PyError Nat :=
  match b64Val c with
  | some n => .ok n
  | none => .error .valueError

/-- Base64 encoding of a byte list (the test-side direction of the
round-trip property: three bytes become four characters, with `=` padding
for a final group of one or two bytes). -/
def b64Encode : List Nat → List Char
  | [] => []
  | [a] => [b64Char (a / 4), b64Char (a % 4 * 16), '=', '=']
  | [a, b] => [b64Char (a / 4), b64Char (a % 4 * 16 + b / 16), b64Char (b % 16 * 4), '=']
  | a :: b :: c :: rest =>
    b64Char (a / 4) :: b64Char (a % 4 * 16 + b / 16) :: b64Char (b % 16 * 4 + c / 64)
      :: b64Char (c % 64) :: b64Encode rest

/-- Decode groups of four characters; a group ending in padding yields the
final one or two bytes and decoding stops there (as `binascii.a2b_base64`
stops at padding). -/
def b64DecodeChunks : List Char → Except PyError (List Nat)
  | c1 :: c2 :: c3 :: c4 :: rest =>
    if c3 = '=' then
      if c4 = '=' then do
        let s1 ← b64ValE c1
        let s2 ← b64ValE c2
        .ok [s1 * 4 + s2 / 16]
      else .error .valueError
    else if c4 = '=' then do
      let s1 ← b64ValE c1
      let s2 ← b64ValE c2
      let s3 ← b64ValE c3
      .ok [s1 * 4 + s2 / 16, s2 % 16 * 16 + s3 / 4]
    else do
      let s1 ← b64ValE c1
      let s2 ← b64ValE c2
      let s3 ← b64ValE c3
      let s4 ← b64ValE c4
      let t ← b64DecodeChunks rest
      .ok ((s1 * 4 + s2 / 16) :: (s2 % 16 * 16 + s3 / 4) :: (s3 % 4 * 64 + s4) :: t)
  | [] => .ok []
  | _ => .error .valueError

/-- `base64.b64decode(source)`: discard characters outside the alphabet,
require a multiple of four characters, decode chunkwise. -/
def b64Decode (source : List Char) : Except PyError (List Nat) :=
  let cs := source.filter isB64OrPad
  if cs.length % 4 = 0 then b64DecodeChunks cs else .error .valueError

/-! ### Little-endian byte/word views (`numpy.frombuffer` and its inverse) -/

/-- The `w` little-endian bytes of a machine word. -/
def leBytes : Nat → Nat → List Nat
  | 0, _ => []
  | w + 1, n => n % 256 :: leBytes w (n / 256)

/-- Recombine a little-endian byte list into a machine word. -/
def combineLE (bs : List Nat) : Nat :=
  bs.foldr (fun b acc => b + 256 * acc) 0

/-- The little-endian byte serialisation of an array of `w`-byte words
(the layout `numpy.ndarray.tobytes` produces for a little-endian dtype). -/
def wordsToBytes (w : Nat) : List Nat → List Nat
  | [] => []
  | x :: xs => leBytes w x ++ wordsToBytes w xs

/-- Chunking loop of `numpy.frombuffer`, driven by a fuel argument so that
the recursion is structural: each step consumes at least one byte, so a
fuel of the buffer length always suffices for positive `w`. -/
def bytesToWordsFuel (w : Nat) : Nat → List Nat → List Nat
  | _, [] => []
  | 0, _ :: _ => []
  | fuel + 1, b :: bs => combineLE ((b :: bs).take w) :: bytesToWordsFuel w fuel ((b :: bs).drop w)

/-- `numpy.frombuffer`: reinterpret a byte buffer as a contiguous
little-endian array of `w`-byte elements. -/
def bytesToWords (w : Nat) (bs : List Nat) : List Nat :=
  bytesToWordsFuel w bs.length bs

/-! ### zlib

`zlib.compress` / `zlib.decompress` are an external library, not part of the
module under verification.  Modelled from the spec: "if `compressed`, inflate
with a standard DEFLATE/zlib decompressor" — the codec is modelled as a
lossless byte framing in the shape of a real zlib stream (two header bytes,
stored payload, adler32 checksum), with the compression ratio abstracted
away; `zlibDecompress` rejects anything that is not a frame produced by
`zlibCompress`, as `zlib.decompress` raises `zlib.error` on corrupt input
(in particular on an empty buffer). -/

/-- adler32 checksum of a byte list (initial value 1, both sums mod 65521). -/
def adler32 (bs : List Nat) : Nat :=
  let p := bs.foldl (fun (p : Nat × Nat) b => ((p.1 + b) % 65521, (p.2 + p.1 + b) % 65521)) (1, 0)
  p.2 * 65536 + p.1

/-- Big-endian 4-byte serialisation of a checksum. -/
def be32 (n : Nat) : List Nat :=
  [n / 2 ^ 24 % 256, n / 2 ^ 16 % 256, n / 256 % 256, n % 256]

/-- Modelled from the spec: the external zlib compressor (header bytes
`0x78 0x01`, stored payload, adler32 trailer). -/
def zlibCompress (bs : List Nat) : List Nat :=
  120 :: 1 :: (bs ++ be32 (adler32 bs))

/-- Modelled from the spec: the external zlib decompressor; `zlib.error`
(here `.zlibError`) on anything that is not a well-formed frame. -/
def zlibDecompress : List Nat → Except PyError (List Nat)
  | 120 :: 1 :: rest =>
    if rest.length < 4 then .error .zlibError
    else
      let payload := rest.take (rest.length - 4)
      let chk := rest.drop (rest.length - 4)
      if chk = be32 (adler32 payload) then .ok payload else .error .zlibError
  | _ => .error .zlibError

/-! ### `_decode_base64_data_array` (mzml.py lines 74–95) -/

/-- `_decode_base64_data_array(source, dtype, is_compressed)`:
`source.encode('ascii')` (a `UnicodeEncodeError`, a `ValueError`, on
non-ASCII text), `base64.b64decode`, optional `zlib.decompress`, then
`numpy.frombuffer` with the given dtype (a `ValueError` when the byte length
is not a multiple of the element width). -/
def _decode_base64_data_array (source : List Char) (dtype : DType) (is_compressed : Bool) :
    Except PyError (List Nat) := do
  if source.any (fun c => 128 ≤ c.toNat) then .error .valueError
  else do
    let decoded ← b64Decode source
    let decoded ← if is_compressed then zlibDecompress decoded else .ok decoded
    if decoded.length % dtype.width = 0 then .ok (bytesToWords dtype.width decoded)
    else .error .valueError

/-! ### The controlled-vocabulary normalizer (`MzML._get_info_smart`, lines 106–176)

`_get_info_smart` first calls the collaborator `self._get_info` (module
`xml`, not part of the verified sources) to turn the XML subtree into a raw
mapping, then rewrites that mapping.  The rewriting below is the
line-by-line embedding of lines 118–176; the collaborator call is modelled
at the reader level (`getInfoSmart`). -/

/-- Lines 119–124: scan the dict keys for `'32-bit float'` then
`'64-bit float'` (the iteration order of the `types` dict); on a hit,
delete the key and stop.  The first component is `none` when the local
variable `dtype` was never assigned. -/
def typeScanKeys (info : Info) : Option DType × Info :=
  if hasKey info "32-bit float" then (some DType.f32, eraseK info "32-bit float")
  else if hasKey info "64-bit float" then (some DType.f64, eraseK info "64-bit float")
  else (none, info)

/-- Lines 126–132 (the `for`–`else`): when no type key was found, look for
the same strings inside `info['name']`, removing the hit from the list.
`t in info['name']` and `info['name'].remove(t)` follow Python semantics
for non-list values (substring test on strings, `AttributeError` from
`remove` on anything but a list). -/
def typeScanName (info : Info) : Except PyError (Option DType × Info) :=
  match lookupV info "name" with
  | none => .ok (none, info)
  | some nv => do
    let c32 ← containsStr nv "32-bit float"
    if c32 then do
      let nv' ← removeStr nv "32-bit float"
      .ok (some DType.f32, upsert info "name" nv')
    else do
      let c64 ← containsStr nv "64-bit float"
      if c64 then do
        let nv' ← removeStr nv "64-bit float"
        .ok (some DType.f64, upsert info "name" nv')
      else .ok (none, info)

/-- Lines 138–145 (the final `else` of the compression ladder):
`compressed = False`, `info.pop('no compression', None)`, then a
`try` block that removes `'no compression'` from `info['name']` and drops
an emptied `'name'` list; only `KeyError` (no `'name'` key) and `TypeError`
are caught, so `list.remove`'s `ValueError` (string absent) and the
`AttributeError` of `remove` on a non-list both propagate. -/
def noCompression (info : Info) : Except PyError (Bool × Info) := do
  let info := eraseK info "no compression"
  match lookupV info "name" with
  | none => .ok (false, info)
  | some nv =>
    match removeStr nv "no compression" with
    | .error e => .error e
    | .ok nv' => do
      let t ← truthy nv'
      if t then .ok (false, upsert info "name" nv')
      else .ok (false, eraseK info "name")

/-- Lines 133–145: `compressed` defaults to `True` when a
`'zlib compression'` fact is present (as a key, else inside `info['name']`),
and the fact is consumed; otherwise the `noCompression` branch runs. -/
def compressionScan (info : Info) : Except PyError (Bool × Info) :=
  if hasKey info "zlib compression" then .ok (true, eraseK info "zlib compression")
  else
    match lookupV info "name" with
    | some nv => do
      let c ← containsStr nv "zlib compression"
      if c then do
        let nv' ← removeStr nv "zlib compression"
        .ok (true, upsert info "name" nv')
      else noCompression info
    | none => noCompression info

/-- Line 148: `_decode_base64_data_array(b, dtype, compressed)` —
`source.encode('ascii')` requires a string (`AttributeError` otherwise). -/
def decodeBinaryValue (b : Value) (dtype : DType) (compressed : Bool) :
    Except PyError (List Nat) :=
  match b with
  | .s str => _decode_base64_data_array str.toList dtype compressed
  | _ => .error .attributeError

/-- `k.endswith(' array')`: suffix test, computed on the character lists. -/
def endsWithArray (k : String) : Bool :=
  (" array".toList).isSuffixOf k.toList

/-- Lines 152–155: `for k in info: if k.endswith(' array') and not info[k]:`
— the first key (in insertion order) ending in `' array'` whose value is
falsy wins; evaluating the truthiness of a multi-element numpy array value
raises `ValueError`. -/
def goSelLoop : Info → Except PyError (Option String)
  | [] => .ok none
  | (k, v) :: rest =>
    if endsWithArray k then do
      let t ← truthy v
      if t then goSelLoop rest else .ok (some k)
    else goSelLoop rest

/-- Lines 159–165: scan the `'name'` list for the first entry ending in
`' array'`; `val.endswith` on a non-string entry raises `AttributeError`. -/
def nameScanArr : List Value → Except PyError (Option String)
  | [] => .ok none
  | v :: rest =>
    match v with
    | .s u => if endsWithArray u then .ok (some u) else nameScanArr rest
    | _ => .error .attributeError

/-- Lines 152–168: choose the semantic key for the decoded array.  A hit in
the key loop or the `'name'` list replaces the whole mapping by a single
entry; otherwise the array is stored under the literal key `'binary'`
(the "last fallback" of line 166–168). -/
def selectArrayKey (info : Info) (array : Value) : Except PyError Info := do
  match ← goSelLoop info with
  | some k => .ok [(k, array)]
  | none =>
    match lookupV info "name" with
    | some (.lst vs) =>
      match ← nameScanArr vs with
      | some u => .ok [(u, array)]
      | none => .ok (upsert info "binary" array)
    | _ => .ok (upsert info "binary" array)

/-- Lines 118–168: the whole `if 'binary' in info:` branch.  When no type
tag was found, the local variable `dtype` is still unbound at line 148/151,
so Python raises `UnboundLocalError` (a `NameError`) — not a dedicated
schema error.  An empty `'binary'` payload short-circuits the decoder
(line 150–151) and yields an empty array of the determined dtype. -/
def processBinary (info : Info) : Except PyError Info := do
  let (dtype?, info) := typeScanKeys info
  let (dtype?, info) ← if dtype?.isNone then typeScanName info else .ok (dtype?, info)
  let (compressed, info) ← compressionScan info
  match lookupV info "binary" with
  | none => .error .keyError
  | some b =>
    let info := eraseK info "binary"
    let t ← truthy b
    let array ←
      if t then
        match dtype? with
        | none => .error .unboundLocalError
        | some dt => do
          let ws ← decodeBinaryValue b dt compressed
          .ok (Value.arr dt ws)
      else
        match dtype? with
        | none => .error .unboundLocalError
        | some dt => .ok (Value.arr dt [])
    selectArrayKey info array

/-- `info.update(x)` for one element of the `'binaryDataArray'` list: merge
a sub-mapping's entries into the parent, later entries overwriting earlier
ones.  (A non-mapping element would make `dict.update` raise; no code path
in this development reaches that case.) -/
def updateFromValue (info : Info) (v : Value) : Except PyError Info :=
  match v with
  | .dct d => .ok (d.foldl (fun acc p => upsert acc p.1 p.2) info)
  | _ => .error .typeError

/-- Lines 169–171: pop the flattened `'binaryDataArray'` list and merge
every already-normalized sub-mapping into the parent mapping. -/
def flattenBDA (info : Info) : Except PyError Info :=
  match lookupV info "binaryDataArray" with
  | none => .ok info
  | some v =>
    let info := eraseK info "binaryDataArray"
    match v with
    | .lst items => items.foldlM updateFromValue info
    | _ => .error .typeError

/-- Lines 172–175: coerce the known integer-typed fact `'ms level'`. -/
def msLevelCoerce (info : Info) : Except PyError Info :=
  match lookupV info "ms level" with
  | some v => do
    let n ← toIntV v
    .ok (upsert info "ms level" (.i n))
  | none => .ok info

/-- Lines 118–176: the mapping-rewriting part of `_get_info_smart`, applied
to the raw mapping the `_get_info` collaborator produced for one element. -/
def normalizeInfo (info : Info) : Except PyError Info := do
  let info ← if hasKey info "binary" then processBinary info else .ok info
  let info ← if hasKey info "binaryDataArray" then flattenBDA info else .ok info
  msLevelCoerce info

/-! ### Trailer index locator (`find_index_list_offset` / `find_index_list`,
lines 280–352)

The file is its decoded-text view, a `List Char`.  `read_from_start`
re-seeks the handle to position 0, so each scan below is a pure function of
the text. -/

/-- `<indexListOffset>` literal. -/
def tagOpenILO : List Char := "<indexListOffset>".toList

/-- `</indexListOffset>` literal. -/
def tagCloseILO : List Char := "</indexListOffset>".toList

/-- Try the pattern `<indexListOffset>(\d+)</indexListOffset>` anchored at
the head of `cs` (greedy digits; the closing literal must follow, and with
a digit-only capture a regex backtrack can never succeed elsewhere). -/
def matchILOAt (cs : List Char) : Option Nat :=
  if tagOpenILO.isPrefixOf cs then
    let r := cs.drop tagOpenILO.length
    let ds := r.takeWhile Char.isDigit
    if !ds.isEmpty && tagCloseILO.isPrefixOf (r.drop ds.length) then
      some (ds.foldl (fun a c => a * 10 + (c.toNat - 48)) 0)
    else none
  else none

/-- `re.findall(r"<indexListOffset>(\d+)</indexListOffset>", text)`: the
matched captures in order.  (Scanning every position is equivalent to
`findall`'s skip-past-the-match behaviour because one match's text cannot
overlap the start of another.) -/
def findOffsets : List Char → List Nat
  | [] => []
  | c :: cs =>
    match matchILOAt (c :: cs) with
    | some n => n :: findOffsets cs
    | none => findOffsets cs

/-- Lines 295–300: `f.seek(-1024, 2); text = f.read(1024)` followed by the
`findall`.  An end-relative seek to a negative absolute position fails at
the OS level (`OSError: invalid argument`), so a file shorter than 1024
bytes makes the function raise — there is no clamping to start-of-file. -/
def find_index_list_offset (text : List Char) : Except PyError (List Nat) :=
  if text.length < 1024 then .error .osError
  else .ok (findOffsets (text.drop (text.length - 1024)))

/-- `<index name="` literal. -/
def tagIndexName : List Char := "<index name=\"".toList

/-- The capture of `<index name="(\S+)">` after the literal: `run` is the
maximal non-whitespace run; backtracking hands characters back to find the
rightmost `">` inside it, so the capture is `run.take i` for the largest
`i ≥ 1` with `run[i] = '"'` and `run[i+1] = '>'`. -/
def nameCapture (run : List Char) : Option (List Char) :=
  match ((List.range run.length).filter
      (fun i => 1 ≤ i && run.get? i == some '"' && run.get? (i + 1) == some '>')).getLast? with
  | some i => some (run.take i)
  | none => none

/-- `name_pattern.search(line)` for `<index name="(\S+)">`: first position
where the pattern matches, with the backtracking capture above. -/
def searchIndexName : List Char → Option String
  | [] => none
  | c :: cs =>
    let attempt :=
      if tagIndexName.isPrefixOf (c :: cs) then
        match nameCapture (((c :: cs).drop tagIndexName.length).takeWhile (fun x => !x.isWhitespace)) with
        | some cap => some (String.mk cap)
        | none => none
      else none
    match attempt with
    | some nm => some nm
    | none => searchIndexName cs

/-- `<offset idRef="` literal. -/
def tagOffsetIdRef : List Char := "<offset idRef=\"".toList

/-- Try `<offset idRef="([^"]+)">(\d+)</offset>` anchored at the head of
`cs`: the id capture is the maximal quote-free run (nonempty), followed by
the literal `">`, greedy digits and the closing literal. -/
def matchOffsetAt (cs : List Char) : Option (String × Nat) :=
  if tagOffsetIdRef.isPrefixOf cs then
    let r := cs.drop tagOffsetIdRef.length
    let idr := r.takeWhile (fun x => x ≠ '"')
    if idr.isEmpty then none
    else
      let r2 := r.drop idr.length
      if ("\">".toList).isPrefixOf r2 then
        let r3 := r2.drop 2
        let ds := r3.takeWhile Char.isDigit
        if !ds.isEmpty && ("</offset>".toList).isPrefixOf (r3.drop ds.length) then
          some (String.mk idr, ds.foldl (fun a c => a * 10 + (c.toNat - 48)) 0)
        else none
      else none
  else none

/-- `offset_pattern.search(line)`. -/
def searchOffsetEntry : List Char → Option (String × Nat)
  | [] => none
  | c :: cs =>
    match matchOffsetAt (c :: cs) with
    | some p => some p
    | none => searchOffsetEntry cs

/-- `end_pattern.search(line)` for `</index>`: substring test. -/
def hasEndIndex : List Char → Bool
  | [] => false
  | c :: cs => ("</index>".toList).isPrefixOf (c :: cs) || hasEndIndex cs

/-- `for line in f`: split the remaining text at newlines (patterns never
span or match a newline, so dropping the terminators is faithful). -/
def splitLinesAux (acc : List Char) : List Char → List (List Char)
  | [] => [acc.reverse]
  | c :: cs => if c = '\n' then acc.reverse :: splitLinesAux [] cs else splitLinesAux (c :: acc) cs

/-- Split text into lines. -/
def splitLines (cs : List Char) : List (List Char) := splitLinesAux [] cs

/-- The offset index: index category name (`None` until the first
`<index name=...>` line is seen) to id → byte-offset map. -/
abbrev OffsetIndex := List (Option String × List (String × Nat))

/-- Lines 336–351: the line loop.  A name line rebinds `index_name` (the
in-progress map is kept), an offset line inserts into the in-progress map,
and a `</index>` line commits the in-progress map into `index_list` under
the current name and starts a fresh one.  Per line the three patterns are
tried in that order, the first hit winning. -/
def parseIndexLines (name? : Option String) (current : List (String × Nat))
    (acc : OffsetIndex) : List (List Char) → OffsetIndex
  | [] => acc
  | line :: rest =>
    match searchIndexName line with
    | some nm => parseIndexLines (some nm) current acc rest
    | none =>
      match searchOffsetEntry line with
      | some p => parseIndexLines name? (upsertA current p.1 p.2) acc rest
      | none =>
        if hasEndIndex line then parseIndexLines name? [] (upsertA acc name? current) rest
        else parseIndexLines name? current acc rest

/-- One iteration of the outer loop of lines 321–351 for an accepted
offset: re-open at start, `f.seek(offset)` (seeking past end-of-file is
legal and reads nothing), scan line by line. -/
def parseIndexAt (text : List Char) (off : Nat) (acc : OffsetIndex) : OffsetIndex :=
  parseIndexLines none [] acc (splitLines (text.drop off))

/-- Lines 303–352, `find_index_list`: every discovered trailer offset below
1024 is skipped (the ProteoWizard bogus-offset workaround); each remaining
offset's index block is parsed into the shared `index_list`. -/
def find_index_list (text : List Char) : Except PyError OffsetIndex := do
  let offsets ← find_index_list_offset text
  .ok (offsets.foldl (fun acc off => if off < 1024 then acc else parseIndexAt text off acc) [])

/-! ### The indexed random-access reader (`IndexedMzML`, lines 355–432)

The base parser `xml.XML` is a collaborator from another module.  Modelled
from the spec: the generic XML reader exposes the document's elements in
document order, each with its local name, optional `id` attribute, starting
byte offset, and the raw mapping `_get_info` produces for it; `reset()`
re-seeks the handle to the start, so every operation below is a pure
function of the file. -/

/-- Modelled from the spec: one parsed element as seen through the
collaborator interface ("a generic XML-subtree-to-mapping converter ...
and a streaming forward iterator over elements by local name"). -/
structure Element where
  name : String
  idAttr : Option String
  start : Nat
  info : Info

/-- A source file: its decoded-text view (scanned by the trailer index
locator) together with the element stream the XML collaborator yields for
it (spectrum elements of an mzML document are siblings, never nested inside
one another). -/
structure MzFile where
  text : List Char
  elems : List Element

/-- `self._get_info_smart(elem, recursive=True)`: the collaborator call
`self._get_info` is modelled as returning the element's raw mapping, and
lines 118–176 rewrite it. -/
def getInfoSmart (e : Element) : Except PyError Info :=
  normalizeInfo e.info

/-- Modelled from the spec: the base parser's linear-scan
`get_by_id` — reset to start-of-file, scan every element in document order
for a matching `id` attribute, normalize the first hit; an id absent from
the whole file is the design document's `NotFound` lookup failure. -/
def baseGetById (f : MzFile) (eid : String) : Except PyError Info :=
  match f.elems.find? (fun e => e.idAttr == some eid) with
  | some e => getInfoSmart e
  | none => .error .notFound

/-- Lines 370–393, `_find_by_id_no_reset`: iterative parsing from the
current position (elements starting before it are not seen), returning the
first element whose `id` attribute equals the query at its end event and
eagerly clearing every other element. -/
def findByIdNoReset (f : MzFile) (pos : Nat) (eid : String) : Option Element :=
  (f.elems.filter (fun e => pos ≤ e.start)).find? (fun e => e.idAttr == some eid)

/-- The reader state after `__init__`: the wrapped source and the offset
index built exactly once from its trailer. -/
structure IndexedReader where
  file : MzFile
  offsetIndex : OffsetIndex

/-- Lines 356–361, `IndexedMzML.__init__`: reset, `_build_index` (which is
`find_index_list` on the source), reset.  Nothing catches an exception of
index construction, so a failing trailer seek propagates out of the
constructor. -/
def mkIndexedMzML (f : MzFile) : Except PyError IndexedReader := do
  let idx ← find_index_list f.text
  .ok ⟨f, idx⟩

/-- `self._offset_index['spectrum']` (`KeyError` when absent). -/
def spectrumIndex (r : IndexedReader) : Option (List (String × Nat)) :=
  lookupA r.offsetIndex (some "spectrum")

/-- Lines 411–417, the `try` block of `get_by_id`: look the id up in the
`"spectrum"` category (both subscripts can raise `KeyError`), seek to the
recorded offset, forward-scan with `_find_by_id_no_reset`, normalize.
When the forward scan falls off the end it returns `None`, and
`_get_info_smart(None)` dies on `None.tag` inside `xml._local_name` with an
`AttributeError`. -/
def indexedPath (r : IndexedReader) (eid : String) : Except PyError Info :=
  match spectrumIndex r with
  | none => .error .keyError
  | some index =>
    match lookupA index eid with
    | none => .error .keyError
    | some offset =>
      match findByIdNoReset r.file offset eid with
      | some elem => getInfoSmart elem
      | none => .error .attributeError

/-- Lines 395–419, `IndexedMzML.get_by_id`: the whole indexed path runs
inside `try: ... except KeyError:`, so a `KeyError` raised anywhere in it —
and nothing else — falls back to the base parser's linear scan. -/
def getById (r : IndexedReader) (eid : String) : Except PyError Info :=
  match indexedPath r eid with
  | .error .keyError => baseGetById r.file eid
  | res => res

/-- `sorted(index, key=lambda x: x[1])`: stable sort of the category's
entries by ascending byte offset. -/
def sortByOffset (entries : List (String × Nat)) : List (String × Nat) :=
  entries.mergeSort (fun a b => a.2 ≤ b.2)

/-- Modelled from the spec: `self.iterfind('spectrum')` — the collaborator's
full linear scan yielding every `spectrum` element in document order,
normalized. -/
def linearSpectra (f : MzFile) : Except PyError (List Info) :=
  (f.elems.filter (fun e => e.name == "spectrum")).mapM getInfoSmart

/-- Lines 424–432, `IndexedMzML.__iter__` (the generator collected into a
list): with a `"spectrum"` category, yield `get_by_id` for each id in
ascending-offset order; the `KeyError` of a missing category selects the
linear fallback. -/
def iterReader (r : IndexedReader) : Except PyError (List Info) :=
  match spectrumIndex r with
  | some index => (sortByOffset index).mapM (fun p => getById r p.1)
  | none => linearSpectra r.file

/-! ### Spec-side definitions and test fixtures

`selectArrayKeySpec` renders the design document's description of the
array-key selection (§4.2 step d) as a definition of its own, for
comparison with `selectArrayKey` above, with the branch condition stated as
"the first key (in insertion order) ending in `' array'` whose value is
falsy" — the corrected form of the claim.  The remaining definitions are
concrete fixtures used by witnesses and counterexamples. -/

/-- Total truthiness (agrees with `truthy` whenever the latter succeeds). -/
def truthyD (v : Value) : Bool :=
  match truthy v with
  | .ok b => b
  | .error _ => false

/-- The first key (in insertion order) ending in `' array'` whose value is
falsy. -/
def firstFalsyArrayKey (info : Info) : Option String :=
  (info.find? (fun p => endsWithArray p.1 && !truthyD p.2)).map (fun p => p.1)

/-- The first entry of a list-valued `'name'` ending in `' array'`. -/
def nameArrayEntrySpec (info : Info) : Option String :=
  match lookupV info "name" with
  | some (.lst vs) =>
    vs.findSome? (fun v => match v with | .s u => if endsWithArray u then some u else none | _ => none)
  | _ => none

/-- Spec-side array-key selection: first falsy `' array'` key wins and
replaces the mapping; else the first `' array'` entry of the `'name'` list;
else the array is stored under the literal key `'binary'`. -/
def selectArrayKeySpec (info : Info) (array : Value) : Info :=
  match firstFalsyArrayKey info with
  | some k => [(k, array)]
  | none =>
    match nameArrayEntrySpec info with
    | some u => [(u, array)]
    | none => upsert info "binary" array

/-- The test-side encoding pipeline's optional compression stage. -/
def maybeCompress (c : Bool) (bs : List Nat) : List Nat :=
  if c then zlibCompress bs else bs

/-- The controlled-vocabulary key naming a dtype. -/
def typeKeyStr : DType → String
  | .f32 => "32-bit float"
  | .f64 => "64-bit float"

/-- The controlled-vocabulary key naming a compression state. -/
def compKeyStr : Bool → String
  | true => "zlib compression"
  | false => "no compression"

/-- A canonical `binaryDataArray` mapping with an empty payload and the
given type and compression facts as keys. -/
def emptyPayloadInfo (dt : DType) (c : Bool) : Info :=
  [("binary", .s ""), (typeKeyStr dt, .s ""), (compKeyStr c, .s "")]

/-- A 1024-byte file whose trailer names only the bogus offset 37. -/
def smallOffsetText : List Char :=
  List.replicate 987 ' ' ++ "<indexListOffset>37</indexListOffset>".toList

/-- A 1024-byte file with no trailer tags at all. -/
def blankText : List Char :=
  List.replicate 1024 ' '

/-- A fixture file: two spectra (ids out of offset order) and the blank
trailer. -/
def fixtureElems : List Element :=
  [⟨"spectrum", some "scan=1", 1500, [("id", .s "scan=1"), ("ms level", .s "1")]⟩,
   ⟨"spectrum", some "scan=2", 2000, [("id", .s "scan=2"), ("ms level", .s "2")]⟩]

/-- The fixture file for constructor and fallback witnesses. -/
def fixtureFile : MzFile :=
  ⟨blankText, fixtureElems⟩

/-- A reader over the fixture file whose offset index lists the two
spectra with `scan=2` inserted first (so insertion order, id order and
offset order disagree with each other where possible). -/
def fixtureReader : IndexedReader :=
  ⟨fixtureFile, [(some "spectrum", [("scan=2", 2000), ("scan=1", 1500)])]⟩

/-! ## Theorems -/

/-- A left fold whose step skips the elements satisfying `p` equals the
fold over the filtered-out list. -/
theorem foldl_ite_filter {α β : Type} (p : α → Prop) [DecidablePred p]
    (g : β → α → β) (l : List α) (init : β) :
    l.foldl (fun acc x => if p x then acc else g acc x) init
      = (l.filter (fun x => !decide (p x))).foldl g init := by
  induction l generalizing init with
  | nil => rfl
  | cons x xs ih =>
    by_cases hp : p x <;> simp [List.filter, hp, ih]

/-- If the first match of `q` in `l` also satisfies `p`, it is the first
match of `q` in the `p`-filtered list. -/
theorem find?_filter_of_find? {α : Type} (p q : α → Bool) (l : List α) (e : α)
    (h : l.find? q = some e) (hp : p e = true) :
    (l.filter p).find? q = some e := by
  induction l with
  | nil => simp at h
  | cons x xs ih =>
    rw [List.find?_cons] at h
    cases hq : q x with
    | true =>
      rw [hq] at h
      simp only [Option.some.injEq] at h
      subst h
      simp [List.filter_cons, hp, List.find?_cons, hq]
    | false =>
      rw [hq] at h
      simp only [List.filter_cons, List.find?_cons]
      cases hpx : p x <;> simp [hq, ih h]

/-- C7: `find_index_list` discards every trailer offset below 1024 without
parsing anything from it — the result is exactly the fold of the per-offset
index-block parse over the offsets that are at least 1024; in particular,
when every discovered offset is below 1024, the offset index is empty. -/
theorem C7_small_offsets_discarded (text : List Char) (offs : List Nat)
    (h : find_index_list_offset text = .ok offs) :
    find_index_list text =
      .ok ((offs.filter (fun o => !decide (o < 1024))).foldl
        (fun acc off => parseIndexAt text off acc) []) ∧
    ((∀ o ∈ offs, o < 1024) → find_index_list text = .ok []) := by
  have key : find_index_list text =
      .ok ((offs.filter (fun o => !decide (o < 1024))).foldl
        (fun acc off => parseIndexAt text off acc) []) := by
    unfold find_index_list
    rw [h]
    show Except.ok _ = _
    rw [foldl_ite_filter (fun o => o < 1024) (fun acc off => parseIndexAt text off acc) offs []]
  refine ⟨key, fun hall => ?_⟩
  rw [key]
  have : offs.filter (fun o => !decide (o < 1024)) = [] := by
    rw [List.filter_eq_nil_iff]
    intro o ho
    simp [hall o ho]
  rw [this]
  rfl

/-- C7 witness: a 1024-byte file whose trailer records only offset 37;
the offset is discarded and the index stays empty. -/
theorem C7_witness : find_index_list smallOffsetText = .ok [] := by
  exact (C7_small_offsets_discarded smallOffsetText [37] (by rfl)).2 (by decide)

/-- C9: for each of the four (element type, compressed) pairs, normalizing
a `binaryDataArray` mapping with an empty payload succeeds and produces the
zero-length array of the declared dtype (the guard of lines 146–151
bypasses the decoder, so this holds for the zlib pair as well). -/
theorem C9_empty_payload (dt : DType) (c : Bool) :
    normalizeInfo (emptyPayloadInfo dt c) = .ok [("binary", Value.arr dt [])] := by
  cases dt <;> cases c <;> rfl

/-- C10: the `try`/`except KeyError` of `get_by_id` converts a `KeyError`
arising anywhere in the indexed path — the category subscript, the id
subscript, or any later stage — into the base parser's linear scan, while
every non-`KeyError` outcome of the indexed path (success or any other
exception) passes through unchanged. -/
theorem C10_keyerror_fallback (r : IndexedReader) (eid : String) :
    (indexedPath r eid = .error .keyError → getById r eid = baseGetById r.file eid) ∧
    (∀ e : PyError, e ≠ .keyError → indexedPath r eid = .error e → getById r eid = .error e) ∧
    (∀ out : Info, indexedPath r eid = .ok out → getById r eid = .ok out) := by
  refine ⟨fun h => by simp [getById, h], fun e he h => ?_, fun out h => by simp [getById, h]⟩
  simp only [getById, h]
  cases e <;> simp_all

/-- C10 witness: an id missing from the offset index of the fixture reader
is re-looked-up by linear scan. -/
theorem C10_witness : getById fixtureReader "nope" = baseGetById fixtureReader.file "nope" := by
  exact (C10_keyerror_fallback fixtureReader "nope").1 (by rfl)

/-- C2 (amended): for a file of at least 1024 bytes the constructor always
succeeds — whatever the trailer contains — and when no `"spectrum"`
category was recovered, every lookup and the iteration run through the base
parser's full linear scan.  (For files shorter than 1024 bytes the claim
fails: see the counterexample.) -/
theorem C2_construction_degrades (f : MzFile) (h : 1024 ≤ f.text.length) :
    ∃ r : IndexedReader, mkIndexedMzML f = .ok r ∧ r.file = f ∧
      (spectrumIndex r = none →
        (∀ eid, getById r eid = baseGetById f eid) ∧ iterReader r = linearSpectra f) := by
  have hoff : find_index_list_offset f.text =
      .ok (findOffsets (f.text.drop (f.text.length - 1024))) := by
    unfold find_index_list_offset
    rw [if_neg (by omega)]
  refine ⟨⟨f, ((findOffsets (f.text.drop (f.text.length - 1024))).foldl
      (fun acc off => if off < 1024 then acc else parseIndexAt f.text off acc) [])⟩, ?_, rfl, ?_⟩
  · unfold mkIndexedMzML find_index_list
    rw [hoff]
    rfl
  · intro hnone
    refine ⟨fun eid => ?_, ?_⟩
    · simp only [getById, indexedPath, hnone]
    · simp only [iterReader, hnone]

/-- C2 witness: the fixture file (blank 1024-byte trailer, two spectra)
constructs successfully and serves lookups and iteration linearly. -/
theorem C2_witness :
    ∃ r : IndexedReader, mkIndexedMzML fixtureFile = .ok r ∧ r.file = fixtureFile ∧
      (spectrumIndex r = none →
        (∀ eid, getById r eid = baseGetById fixtureFile eid) ∧
        iterReader r = linearSpectra fixtureFile) := by
  exact C2_construction_degrades fixtureFile (by decide)

/-- C2 counterexample: on a file shorter than 1024 bytes the end-relative
seek of `find_index_list_offset` fails and nothing catches the error, so
the constructor raises instead of falling back to a linear scan — the
claim's "or at start-of-file if the file is smaller" clamping does not
exist in the code. -/
theorem C2_counterexample :
    mkIndexedMzML ⟨"ab".toList, []⟩ = .error .osError := by
  rfl

/-- C1: whenever the `"spectrum"` category records an id at an offset no
later than the start of the (first) element carrying that id — the offset
index invariant of the data model: recorded offsets reference the byte
positions of their elements — the indexed path of `get_by_id` and the base
parser's linear scan return the same result.  (When normalization itself
raises a `KeyError`, the fallback recomputes exactly the linear-scan
result, so the equality still holds.) -/
theorem C1_indexed_eq_linear (r : IndexedReader) (eid : String)
    (index : List (String × Nat)) (off : Nat) (e : Element)
    (h1 : spectrumIndex r = some index)
    (h2 : lookupA index eid = some off)
    (h3 : r.file.elems.find? (fun el => el.idAttr == some eid) = some e)
    (h4 : off ≤ e.start) :
    getById r eid = baseGetById r.file eid := by
  have hfind : findByIdNoReset r.file off eid = some e := by
    unfold findByIdNoReset
    exact find?_filter_of_find? _ _ _ _ h3 (by simp [h4])
  have hbase : baseGetById r.file eid = getInfoSmart e := by
    unfold baseGetById
    rw [h3]
  have hpath : indexedPath r eid = getInfoSmart e := by
    simp only [indexedPath, h1, h2, hfind]
  simp only [getById, hpath]
  cases hres : getInfoSmart e with
  | ok out => exact (hbase.trans hres).symm
  | error err =>
    cases err
    case keyError => rfl
    all_goals exact (hbase.trans hres).symm

/-- C1 witness: in the fixture reader the id `scan=1` is indexed at its
true offset 1500; the indexed lookup agrees with the linear scan. -/
theorem C1_witness : getById fixtureReader "scan=1" = baseGetById fixtureReader.file "scan=1" := by
  exact C1_indexed_eq_linear fixtureReader "scan=1"
    [("scan=2", 2000), ("scan=1", 1500)] 1500 ⟨"spectrum", some "scan=1", 1500, [("id", .s "scan=1"), ("ms level", .s "1")]⟩
    (by rfl) (by rfl) (by rfl) (by decide)

/-- C8: with a `"spectrum"` category, iteration yields `get_by_id` of the
category's entries in a sequence that is a permutation of the entries
sorted by ascending byte offset (so neither id order nor insertion order);
without one, iteration is the collaborator's full linear scan over
`spectrum` elements in document order. -/
theorem C8_iteration_order (r : IndexedReader) (index : List (String × Nat)) :
    (spectrumIndex r = some index →
      ∃ entries : List (String × Nat), entries.Perm index ∧
        List.Sorted (fun a b : String × Nat => a.2 ≤ b.2) entries ∧
        iterReader r = entries.mapM (fun p => getById r p.1)) ∧
    (spectrumIndex r = none → iterReader r = linearSpectra r.file) := by
  constructor
  · intro h
    refine ⟨sortByOffset index, List.mergeSort_perm index _, ?_, by simp only [iterReader, h]⟩
    have htrans : ∀ a b c : String × Nat,
        (decide (a.2 ≤ b.2)) = true → (decide (b.2 ≤ c.2)) = true → (decide (a.2 ≤ c.2)) = true := by
      intro a b c hab hbc
      simp only [decide_eq_true_eq] at *
      omega
    have htotal : ∀ a b : String × Nat,
        ((decide (a.2 ≤ b.2)) || (decide (b.2 ≤ a.2))) = true := by
      intro a b
      simp only [Bool.or_eq_true, decide_eq_true_eq]
      exact Nat.le_total _ _
    have hp := List.sorted_mergeSort htrans htotal index
    exact List.Pairwise.imp (by simp only [decide_eq_true_eq]; exact fun h => h) hp
  · intro h
    simp only [iterReader, h]

/-- C8 witness: the fixture reader's index lists `scan=2` (offset 2000)
before `scan=1` (offset 1500); iteration nevertheless visits ascending
offsets. -/
theorem C8_witness :
    ∃ entries : List (String × Nat), entries.Perm [("scan=2", 2000), ("scan=1", 1500)] ∧
      List.Sorted (fun a b : String × Nat => a.2 ≤ b.2) entries ∧
      iterReader fixtureReader = entries.mapM (fun p => getById fixtureReader p.1) := by
  exact (C8_iteration_order fixtureReader [("scan=2", 2000), ("scan=1", 1500)]).1 (by rfl)

/-- Decoding inverts encoding at the level of single sextet characters. -/
theorem b64Val_b64Char : ∀ n, n < 64 → b64Val (b64Char n) = some n := by decide

/-- Alphabet characters are never the pad character. -/
theorem b64Char_ne_pad : ∀ n, n < 64 → b64Char n ≠ '=' := by decide

/-- Alphabet characters survive the `b64decode` discard filter. -/
theorem b64Char_keep : ∀ n, n < 64 → isB64OrPad (b64Char n) = true := by decide

/-- Alphabet characters are ASCII. -/
theorem b64Char_ascii : ∀ n, n < 64 → (b64Char n).toNat < 128 := by decide

/-- Sextet-level inverse, `Except` form. -/
theorem b64ValE_b64Char (n : Nat) (h : n < 64) : b64ValE (b64Char n) = .ok n := by
  unfold b64ValE
  rw [b64Val_b64Char n h]

/-- First sextet bound. -/
theorem sextet1_lt {a : Nat} (ha : a < 256) : a / 4 < 64 := by omega

/-- Second sextet bound. -/
theorem sextet2_lt {a b : Nat} (ha : a < 256) (hb : b < 256) : a % 4 * 16 + b / 16 < 64 := by
  omega

/-- Third sextet bound. -/
theorem sextet3_lt {b c : Nat} (hb : b < 256) (hc : c < 256) : b % 16 * 4 + c / 64 < 64 := by
  omega

/-- Fourth sextet bound. -/
theorem sextet4_lt (c : Nat) : c % 64 < 64 := by omega

/-- Every character the encoder emits passes the decoder's discard filter. -/
theorem b64Encode_keep : ∀ bs : List Nat, (∀ x ∈ bs, x < 256) →
    ∀ c ∈ b64Encode bs, isB64OrPad c = true := by
  intro bs
  induction bs using b64Encode.induct with
  | case1 => intro _ c hc; simp [b64Encode] at hc
  | case2 a =>
    intro h c hc
    have ha := h a (by simp)
    simp only [b64Encode, List.mem_cons, List.not_mem_nil, or_false] at hc
    rcases hc with rfl | rfl | rfl | rfl
    · exact b64Char_keep _ (sextet1_lt ha)
    · exact b64Char_keep _ (by omega)
    · rfl
    · rfl
  | case3 a b =>
    intro h c hc
    have ha := h a (by simp)
    have hb := h b (by simp)
    simp only [b64Encode, List.mem_cons, List.not_mem_nil, or_false] at hc
    rcases hc with rfl | rfl | rfl | rfl
    · exact b64Char_keep _ (sextet1_lt ha)
    · exact b64Char_keep _ (sextet2_lt ha hb)
    · exact b64Char_keep _ (by omega)
    · rfl
  | case4 a b cc rest ih =>
    intro h c hc
    have ha := h a (by simp)
    have hb := h b (by simp)
    have hcc := h cc (by simp)
    simp only [b64Encode, List.mem_cons] at hc
    rcases hc with rfl | rfl | rfl | rfl | hmem
    · exact b64Char_keep _ (sextet1_lt ha)
    · exact b64Char_keep _ (sextet2_lt ha hb)
    · exact b64Char_keep _ (sextet3_lt hb hcc)
    · exact b64Char_keep _ (sextet4_lt cc)
    · exact ih (fun x hx => h x (by simp [hx])) c hmem

/-- Every character the encoder emits is ASCII. -/
theorem b64Encode_ascii : ∀ bs : List Nat, (∀ x ∈ bs, x < 256) →
    ∀ c ∈ b64Encode bs, c.toNat < 128 := by
  intro bs
  induction bs using b64Encode.induct with
  | case1 => intro _ c hc; simp [b64Encode] at hc
  | case2 a =>
    intro h c hc
    have ha := h a (by simp)
    simp only [b64Encode, List.mem_cons, List.not_mem_nil, or_false] at hc
    rcases hc with rfl | rfl | rfl | rfl
    · exact b64Char_ascii _ (sextet1_lt ha)
    · exact b64Char_ascii _ (by omega)
    · decide
    · decide
  | case3 a b =>
    intro h c hc
    have ha := h a (by simp)
    have hb := h b (by simp)
    simp only [b64Encode, List.mem_cons, List.not_mem_nil, or_false] at hc
    rcases hc with rfl | rfl | rfl | rfl
    · exact b64Char_ascii _ (sextet1_lt ha)
    · exact b64Char_ascii _ (sextet2_lt ha hb)
    · exact b64Char_ascii _ (by omega)
    · decide
  | case4 a b cc rest ih =>
    intro h c hc
    have ha := h a (by simp)
    have hb := h b (by simp)
    have hcc := h cc (by simp)
    simp only [b64Encode, List.mem_cons] at hc
    rcases hc with rfl | rfl | rfl | rfl | hmem
    · exact b64Char_ascii _ (sextet1_lt ha)
    · exact b64Char_ascii _ (sextet2_lt ha hb)
    · exact b64Char_ascii _ (sextet3_lt hb hcc)
    · exact b64Char_ascii _ (sextet4_lt cc)
    · exact ih (fun x hx => h x (by simp [hx])) c hmem

/-- The encoder emits whole four-character groups. -/
theorem b64Encode_length_mod (bs : List Nat) : (b64Encode bs).length % 4 = 0 := by
  induction bs using b64Encode.induct with
  | case1 => rfl
  | case2 a => simp [b64Encode]
  | case3 a b => simp [b64Encode]
  | case4 a b cc rest ih =>
    simp only [b64Encode, List.length_cons]
    omega

/-- Chunkwise decoding inverts encoding on byte lists. -/
theorem b64DecodeChunks_encode : ∀ bs : List Nat, (∀ x ∈ bs, x < 256) →
    b64DecodeChunks (b64Encode bs) = .ok bs := by
  intro bs
  induction bs using b64Encode.induct with
  | case1 => intro _; rfl
  | case2 a =>
    intro h
    have ha := h a (by simp)
    show b64DecodeChunks [b64Char (a / 4), b64Char (a % 4 * 16), '=', '='] = .ok [a]
    simp only [b64DecodeChunks, if_pos rfl]
    rw [b64ValE_b64Char _ (sextet1_lt ha), b64ValE_b64Char _ (by omega : a % 4 * 16 < 64)]
    exact congrArg Except.ok (by rw [show a / 4 * 4 + a % 4 * 16 / 16 = a from by omega])
  | case3 a b =>
    intro h
    have ha := h a (by simp)
    have hb := h b (by simp)
    show b64DecodeChunks
        [b64Char (a / 4), b64Char (a % 4 * 16 + b / 16), b64Char (b % 16 * 4), '='] = .ok [a, b]
    simp only [b64DecodeChunks]
    rw [if_neg (b64Char_ne_pad _ (by omega : b % 16 * 4 < 64)), if_pos trivial,
      b64ValE_b64Char _ (sextet1_lt ha), b64ValE_b64Char _ (sextet2_lt ha hb),
      b64ValE_b64Char _ (by omega : b % 16 * 4 < 64)]
    exact congrArg Except.ok (by
      rw [show a / 4 * 4 + (a % 4 * 16 + b / 16) / 16 = a from by omega,
        show (a % 4 * 16 + b / 16) % 16 * 16 + b % 16 * 4 / 4 = b from by omega])
  | case4 a b cc rest ih =>
    intro h
    have ha := h a (by simp)
    have hb := h b (by simp)
    have hcc := h cc (by simp)
    have hrest := ih (fun x hx => h x (by simp [hx]))
    show b64DecodeChunks (b64Char (a / 4) :: b64Char (a % 4 * 16 + b / 16)
        :: b64Char (b % 16 * 4 + cc / 64) :: b64Char (cc % 64) :: b64Encode rest)
      = .ok (a :: b :: cc :: rest)
    simp only [b64DecodeChunks]
    rw [if_neg (b64Char_ne_pad _ (sextet3_lt hb hcc)),
      if_neg (b64Char_ne_pad _ (sextet4_lt cc)),
      b64ValE_b64Char _ (sextet1_lt ha), b64ValE_b64Char _ (sextet2_lt ha hb),
      b64ValE_b64Char _ (sextet3_lt hb hcc), b64ValE_b64Char _ (sextet4_lt cc), hrest]
    exact congrArg Except.ok (by
      rw [show a / 4 * 4 + (a % 4 * 16 + b / 16) / 16 = a from by omega,
        show (a % 4 * 16 + b / 16) % 16 * 16 + (b % 16 * 4 + cc / 64) / 4 = b from by omega,
        show (b % 16 * 4 + cc / 64) % 4 * 64 + cc % 64 = cc from by omega])

/-- `b64decode ∘ b64encode = id` on byte lists. -/
theorem b64Decode_b64Encode (bs : List Nat) (h : ∀ x ∈ bs, x < 256) :
    b64Decode (b64Encode bs) = .ok bs := by
  unfold b64Decode
  rw [List.filter_eq_self.mpr (b64Encode_keep bs h), if_pos (b64Encode_length_mod bs)]
  exact b64DecodeChunks_encode bs h

/-- A word serialises to exactly `w` bytes. -/
theorem leBytes_length : ∀ (w n : Nat), (leBytes w n).length = w := by
  intro w
  induction w with
  | zero => intro n; rfl
  | succ v ih => intro n; simp [leBytes, ih]

/-- Serialised bytes are bytes. -/
theorem leBytes_lt : ∀ (w n : Nat), ∀ x ∈ leBytes w n, x < 256 := by
  intro w
  induction w with
  | zero => intro n x hx; simp [leBytes] at hx
  | succ v ih =>
    intro n x hx
    simp only [leBytes, List.mem_cons] at hx
    rcases hx with rfl | hx
    · omega
    · exact ih _ x hx

/-- Little-endian recombination inverts serialisation for in-range words. -/
theorem combineLE_leBytes : ∀ (w n : Nat), n < 256 ^ w → combineLE (leBytes w n) = n := by
  intro w
  induction w with
  | zero =>
    intro n h
    simp [Nat.pow_zero] at h
    simp [leBytes, combineLE, h]
  | succ v ih =>
    intro n h
    have hdiv : n / 256 < 256 ^ v := by
      rw [Nat.div_lt_iff_lt_mul (by omega)]
      calc n < 256 ^ (v + 1) := h
        _ = 256 ^ v * 256 := by ring
    show combineLE (n % 256 :: leBytes v (n / 256)) = n
    have : combineLE (n % 256 :: leBytes v (n / 256))
        = n % 256 + 256 * combineLE (leBytes v (n / 256)) := rfl
    rw [this, ih _ hdiv]
    omega

/-- Length of the byte serialisation of a word array. -/
theorem wordsToBytes_length (w : Nat) : ∀ ws : List Nat,
    (wordsToBytes w ws).length = w * ws.length := by
  intro ws
  induction ws with
  | nil => simp [wordsToBytes]
  | cons x xs ih =>
    simp [wordsToBytes, leBytes_length, ih]
    ring

/-- The byte serialisation consists of bytes. -/
theorem wordsToBytes_lt (w : Nat) : ∀ ws : List Nat, ∀ x ∈ wordsToBytes w ws, x < 256 := by
  intro ws
  induction ws with
  | nil => intro x hx; simp [wordsToBytes] at hx
  | cons y ys ih =>
    intro x hx
    simp only [wordsToBytes, List.mem_append] at hx
    rcases hx with hx | hx
    · exact leBytes_lt _ _ x hx
    · exact ih x hx

/-- The fuelled `frombuffer` loop inverts serialisation whenever the fuel
covers the buffer length. -/
theorem bytesToWordsFuel_wordsToBytes (w : Nat) (hw : 0 < w) :
    ∀ (ws : List Nat) (fuel : Nat), (∀ x ∈ ws, x < 256 ^ w) →
      (wordsToBytes w ws).length ≤ fuel →
      bytesToWordsFuel w fuel (wordsToBytes w ws) = ws := by
  intro ws
  induction ws with
  | nil =>
    intro fuel _ _
    cases fuel <;> rfl
  | cons x xs ih =>
    intro fuel h hlen
    obtain ⟨v, rfl⟩ : ∃ v, w = v + 1 := ⟨w - 1, by omega⟩
    have hx : x < 256 ^ (v + 1) := h x (by simp)
    have hlen' : (wordsToBytes (v + 1) (x :: xs)).length = (v + 1) + (wordsToBytes (v + 1) xs).length := by
      simp [wordsToBytes, leBytes_length]
    obtain ⟨f, rfl⟩ : ∃ f, fuel = f + 1 := ⟨fuel - 1, by omega⟩
    show bytesToWordsFuel (v + 1) (f + 1)
        ((x % 256 :: leBytes v (x / 256)) ++ wordsToBytes (v + 1) xs) = x :: xs
    rw [List.cons_append, bytesToWordsFuel]
    have htake : (x % 256 :: (leBytes v (x / 256) ++ wordsToBytes (v + 1) xs)).take (v + 1)
        = leBytes (v + 1) x := by
      have : (x % 256 :: (leBytes v (x / 256) ++ wordsToBytes (v + 1) xs))
          = leBytes (v + 1) x ++ wordsToBytes (v + 1) xs := by
        simp [leBytes]
      rw [this, List.take_left' (leBytes_length (v + 1) x)]
    have hdrop : (x % 256 :: (leBytes v (x / 256) ++ wordsToBytes (v + 1) xs)).drop (v + 1)
        = wordsToBytes (v + 1) xs := by
      have : (x % 256 :: (leBytes v (x / 256) ++ wordsToBytes (v + 1) xs))
          = leBytes (v + 1) x ++ wordsToBytes (v + 1) xs := by
        simp [leBytes]
      rw [this, List.drop_left' (leBytes_length (v + 1) x)]
    rw [htake, hdrop, combineLE_leBytes _ _ hx,
      ih f (fun y hy => h y (by simp [hy])) (by omega)]

/-- `frombuffer` inverts serialisation. -/
theorem bytesToWords_wordsToBytes (w : Nat) (hw : 0 < w) (ws : List Nat)
    (h : ∀ x ∈ ws, x < 256 ^ w) :
    bytesToWords w (wordsToBytes w ws) = ws := by
  exact bytesToWordsFuel_wordsToBytes w hw ws _ h le_rfl

/-- The zlib frame consists of bytes when its payload does. -/
theorem zlibCompress_lt (bs : List Nat) (h : ∀ x ∈ bs, x < 256) :
    ∀ x ∈ zlibCompress bs, x < 256 := by
  intro x hx
  simp only [zlibCompress, be32, List.mem_cons, List.mem_append] at hx
  rcases hx with rfl | rfl | hx | hx
  · omega
  · omega
  · exact h x hx
  · simp only [List.mem_cons, List.not_mem_nil, or_false] at hx
    rcases hx with rfl | rfl | rfl | rfl <;> omega

/-- The modelled zlib codec is lossless. -/
theorem zlibDecompress_zlibCompress (bs : List Nat) :
    zlibDecompress (zlibCompress bs) = .ok bs := by
  show zlibDecompress (120 :: 1 :: (bs ++ be32 (adler32 bs))) = .ok bs
  rw [zlibDecompress]
  have hlen : (bs ++ be32 (adler32 bs)).length = bs.length + 4 := by
    simp [be32]
  rw [if_neg (by omega)]
  have htake : (bs ++ be32 (adler32 bs)).take ((bs ++ be32 (adler32 bs)).length - 4) = bs := by
    rw [hlen]
    simpa using @List.take_left' _ bs (be32 (adler32 bs)) bs.length rfl
  have hdrop : (bs ++ be32 (adler32 bs)).drop ((bs ++ be32 (adler32 bs)).length - 4)
      = be32 (adler32 bs) := by
    rw [hlen]
    simpa using @List.drop_left' _ bs (be32 (adler32 bs)) bs.length rfl
  rw [htake, hdrop, if_pos rfl]

/-- C4: for both element types, both compression states, and any array of
in-range machine words (the bit patterns of the floats), serialising the
array to its little-endian byte sequence, optionally zlib-compressing, and
base64-encoding, then running `_decode_base64_data_array` with the matching
(dtype, compressed) pair, returns the original array bit-for-bit — the
decoder reads the buffer as a contiguous little-endian array of the
declared element width. -/
theorem C4_decode_roundtrip (dt : DType) (ws : List Nat) (compressed : Bool)
    (h : ∀ x ∈ ws, x < 256 ^ dt.width) :
    _decode_base64_data_array
      (b64Encode (maybeCompress compressed (wordsToBytes dt.width ws))) dt compressed
      = .ok ws := by
  have hwpos : 0 < dt.width := by cases dt <;> simp [DType.width]
  have hbytes : ∀ x ∈ wordsToBytes dt.width ws, x < 256 := wordsToBytes_lt dt.width ws
  have hpay : ∀ x ∈ maybeCompress compressed (wordsToBytes dt.width ws), x < 256 := by
    cases compressed
    · simpa [maybeCompress] using hbytes
    · simpa [maybeCompress] using zlibCompress_lt _ hbytes
  have hascii : (b64Encode (maybeCompress compressed (wordsToBytes dt.width ws))).any
      (fun c => decide (128 ≤ c.toNat)) = false := by
    rw [List.any_eq_false]
    intro c hc
    have := b64Encode_ascii _ hpay c hc
    simp only [decide_eq_true_eq]
    omega
  have hmod : (wordsToBytes dt.width ws).length % dt.width = 0 := by
    rw [wordsToBytes_length]
    exact Nat.mul_mod_right _ _
  unfold _decode_base64_data_array
  rw [hascii, b64Decode_b64Encode _ hpay]
  cases compressed with
  | false =>
    show (if (wordsToBytes dt.width ws).length % dt.width = 0
        then Except.ok (bytesToWords dt.width (wordsToBytes dt.width ws))
        else Except.error PyError.valueError) = Except.ok ws
    rw [if_pos hmod, bytesToWords_wordsToBytes dt.width hwpos ws h]
  | true =>
    show (do
        let y ← zlibDecompress (zlibCompress (wordsToBytes dt.width ws))
        if y.length % dt.width = 0 then Except.ok (bytesToWords dt.width y)
        else Except.error PyError.valueError) = Except.ok ws
    rw [zlibDecompress_zlibCompress]
    show (if (wordsToBytes dt.width ws).length % dt.width = 0
        then Except.ok (bytesToWords dt.width (wordsToBytes dt.width ws))
        else Except.error PyError.valueError) = Except.ok ws
    rw [if_pos hmod, bytesToWords_wordsToBytes dt.width hwpos ws h]

/-- C4 witness: the 64-bit pattern of the float 1.0, zlib pair. -/
theorem C4_witness :
    (∀ x ∈ [4607182418800017408], x < 256 ^ DType.f64.width) ∧
    _decode_base64_data_array
      (b64Encode (maybeCompress true (wordsToBytes DType.f64.width [4607182418800017408])))
      DType.f64 true = .ok [4607182418800017408] := by
  exact ⟨by decide, C4_decode_roundtrip DType.f64 [4607182418800017408] true (by decide)⟩

/-- Lookup at a matching head. -/
theorem lookupV_cons_pos {a : String} {b : Value} {rest : Info} {k : String} (h : a = k) :
    lookupV ((a, b) :: rest) k = some b := by
  rw [lookupV, List.find?_cons_of_pos _ (by simpa using h)]
  rfl

/-- Lookup skips a non-matching head. -/
theorem lookupV_cons_neg {a : String} {b : Value} {rest : Info} {k : String} (h : a ≠ k) :
    lookupV ((a, b) :: rest) k = lookupV rest k := by
  rw [lookupV, List.find?_cons_of_neg _ (by simpa using h)]
  rfl

/-- Membership at a matching head. -/
theorem hasKey_cons_pos {a : String} {b : Value} {rest : Info} {k : String} (h : a = k) :
    hasKey ((a, b) :: rest) k = true := by
  simp [hasKey, h]

/-- Membership skips a non-matching head. -/
theorem hasKey_cons_neg {a : String} {b : Value} {rest : Info} {k : String} (h : a ≠ k) :
    hasKey ((a, b) :: rest) k = hasKey rest k := by
  simp [hasKey, h]

/-- Deletion drops a matching head. -/
theorem eraseK_cons_pos {a : String} {b : Value} {rest : Info} {k : String} (h : a = k) :
    eraseK ((a, b) :: rest) k = eraseK rest k := by
  simp [eraseK, List.filter_cons, h]

/-- Deletion keeps a non-matching head. -/
theorem eraseK_cons_neg {a : String} {b : Value} {rest : Info} {k : String} (h : a ≠ k) :
    eraseK ((a, b) :: rest) k = (a, b) :: eraseK rest k := by
  simp [eraseK, List.filter_cons, h]

/-- Upsert overwrites a matching head in place. -/
theorem upsert_cons_pos {a : String} {b : Value} {rest : Info} {k : String} {v : Value}
    (h : a = k) : upsert ((a, b) :: rest) k v = (k, v) :: rest := by
  simp [upsert, h]

/-- Upsert walks past a non-matching head. -/
theorem upsert_cons_neg {a : String} {b : Value} {rest : Info} {k : String} {v : Value}
    (h : a ≠ k) : upsert ((a, b) :: rest) k v = (a, b) :: upsert rest k v := by
  simp [upsert, h]

/-- Key membership is definedness of lookup. -/
theorem lookupV_isSome : ∀ (info : Info) (k : String), (lookupV info k).isSome = hasKey info k := by
  intro info k
  induction info with
  | nil => rfl
  | cons p rest ih =>
    obtain ⟨a, b⟩ := p
    by_cases hp : a = k
    · rw [lookupV_cons_pos hp, hasKey_cons_pos hp]
      rfl
    · rw [lookupV_cons_neg hp, hasKey_cons_neg hp, ih]

/-- A successful lookup witnesses membership. -/
theorem hasKey_of_lookupV {info : Info} {k : String} {v : Value}
    (h : lookupV info k = some v) : hasKey info k = true := by
  rw [← lookupV_isSome, h]
  rfl

/-- An absent key has no binding. -/
theorem lookupV_eq_none {info : Info} {k : String}
    (h : hasKey info k = false) : lookupV info k = none := by
  have h2 := lookupV_isSome info k
  rw [h] at h2
  exact Option.not_isSome_iff_eq_none.mp (by simp [h2])

/-- Deleting one key leaves the others' bindings unchanged. -/
theorem lookupV_eraseK : ∀ {info : Info} {k k' : String}, k ≠ k' →
    lookupV (eraseK info k') k = lookupV info k := by
  intro info k k' h
  induction info with
  | nil => rfl
  | cons p rest ih =>
    obtain ⟨a, b⟩ := p
    by_cases hp : a = k'
    · have hk : a ≠ k := fun hh => h (hh ▸ hp)
      rw [eraseK_cons_pos hp, lookupV_cons_neg hk, ih]
    · by_cases hk : a = k
      · rw [eraseK_cons_neg hp, lookupV_cons_pos hk, lookupV_cons_pos hk]
      · rw [eraseK_cons_neg hp, lookupV_cons_neg hk, lookupV_cons_neg hk, ih]

/-- Deleting one key leaves the others' membership unchanged. -/
theorem hasKey_eraseK {info : Info} {k k' : String} (h : k ≠ k') :
    hasKey (eraseK info k') k = hasKey info k := by
  rw [← lookupV_isSome, ← lookupV_isSome, lookupV_eraseK h]

/-- An upserted binding is found. -/
theorem lookupV_upsert_self : ∀ (info : Info) (k : String) (v : Value),
    lookupV (upsert info k v) k = some v := by
  intro info k v
  induction info with
  | nil => exact lookupV_cons_pos rfl
  | cons p rest ih =>
    obtain ⟨a, b⟩ := p
    by_cases hp : a = k
    · rw [upsert_cons_pos hp, lookupV_cons_pos rfl]
    · rw [upsert_cons_neg hp, lookupV_cons_neg hp, ih]

/-- Upserting the value a key already has is the identity. -/
theorem upsert_eq_self : ∀ {info : Info} {k : String} {v : Value},
    lookupV info k = some v → upsert info k v = info := by
  intro info k v h
  induction info with
  | nil => simp [lookupV] at h
  | cons p rest ih =>
    obtain ⟨a, b⟩ := p
    by_cases hp : a = k
    · rw [lookupV_cons_pos hp] at h
      injection h with hbv
      rw [upsert_cons_pos hp, hp, hbv]
    · rw [lookupV_cons_neg hp] at h
      rw [upsert_cons_neg hp, ih h]

/-- Inverting a successful `Except` bind. -/
theorem except_bind_ok {ε α β : Type} {m : Except ε α} {f : α → Except ε β} {b : β}
    (h : (m >>= f) = .ok b) : ∃ a, m = .ok a ∧ f a = .ok b := by
  cases m with
  | error e => exact absurd h (by simp [Bind.bind, Except.bind])
  | ok a => exact ⟨a, rfl, h⟩

/-- Bind of a successful `Except` computes. -/
theorem exceptOkBind {ε α β : Type} (a : α) (f : α → Except ε β) :
    (Except.ok a >>= f : Except ε β) = f a := rfl

/-- Bind of a failed `Except` propagates the error. -/
theorem exceptErrorBind {ε α β : Type} (e : ε) (f : α → Except ε β) :
    (Except.error e >>= f : Except ε β) = .error e := rfl

/-- C3 (amended): a `binaryDataArray` mapping whose type tag is missing —
no `'32-bit float'` or `'64-bit float'` key and no `'name'` key at all —
makes the normalizer fail with Python's `UnboundLocalError` (the local
variable `dtype` is referenced at line 148/151 without ever being
assigned); no dedicated `SchemaError` exists anywhere in the module.
The truthiness hypothesis excludes the one earlier failure (`if b:` on a
multi-element numpy array). -/
theorem C3_no_type_tag (info : Info) (bv : Value) (tb : Bool)
    (h1 : lookupV info "binary" = some bv)
    (h2 : hasKey info "32-bit float" = false)
    (h3 : hasKey info "64-bit float" = false)
    (h4 : hasKey info "name" = false)
    (h5 : truthy bv = .ok tb) :
    normalizeInfo info = .error .unboundLocalError := by
  have hbin : hasKey info "binary" = true := hasKey_of_lookupV h1
  have ht : typeScanKeys info = (none, info) := by
    unfold typeScanKeys
    rw [h2, h3]
    simp
  have htn : typeScanName info = .ok (none, info) := by
    unfold typeScanName
    rw [lookupV_eq_none h4]
  have hcomp : ∃ c info', compressionScan info = .ok (c, info') ∧ lookupV info' "binary" = some bv := by
    by_cases hz : hasKey info "zlib compression" = true
    · refine ⟨true, eraseK info "zlib compression", ?_, ?_⟩
      · unfold compressionScan
        rw [hz]
        simp
      · rw [lookupV_eraseK (by decide)]
        exact h1
    · have hz' : hasKey info "zlib compression" = false := by simpa using hz
      refine ⟨false, eraseK info "no compression", ?_, ?_⟩
      · unfold compressionScan
        rw [hz']
        simp only [Bool.false_eq_true, if_false]
        rw [lookupV_eq_none h4]
        have hname' : hasKey (eraseK info "no compression") "name" = false := by
          rw [hasKey_eraseK (by decide)]
          exact h4
        show noCompression info = _
        simp only [noCompression, lookupV_eq_none hname']
      · rw [lookupV_eraseK (by decide)]
        exact h1
  obtain ⟨c, info', hc, hb⟩ := hcomp
  have hpb : processBinary info = .error .unboundLocalError := by
    unfold processBinary
    rw [ht]
    simp only [exceptOkBind, htn, hc, hb, h5, ite_self]
    cases tb <;> rfl
  unfold normalizeInfo
  rw [hbin, hpb]
  rfl

/-- C3 witness: a typeless mapping with an empty payload dies with
`UnboundLocalError`. -/
theorem C3_witness :
    normalizeInfo [("binary", .s ""), ("id", .s "x")] = .error .unboundLocalError := by
  exact C3_no_type_tag [("binary", .s ""), ("id", .s "x")] (.s "") false
    (by rfl) (by rfl) (by rfl) (by rfl) (by rfl)

/-- C3 counterexample: on a mapping with a `'binary'` key and no type tag
the normalizer raises `UnboundLocalError`, not the dedicated `SchemaError`
the claim requires (no such error class exists in the module). -/
theorem C3_counterexample :
    normalizeInfo [("binary", .s "AAAA")] = .error .unboundLocalError ∧
      PyError.unboundLocalError ≠ PyError.schemaError := by
  exact ⟨by rfl, by decide⟩

/-- The `ms level` coercion is stable on its own output. -/
theorem msLevel_stable (info out : Info) (h : msLevelCoerce info = .ok out) :
    msLevelCoerce out = .ok out := by
  unfold msLevelCoerce at h
  cases hml : lookupV info "ms level" with
  | none =>
    rw [hml] at h
    injection h with h
    subst h
    unfold msLevelCoerce
    rw [hml]
  | some v =>
    rw [hml] at h
    obtain ⟨n, hn, hout⟩ := except_bind_ok h
    injection hout with hout
    subst hout
    unfold msLevelCoerce
    rw [lookupV_upsert_self]
    show Except.ok (upsert (upsert info "ms level" (Value.i n)) "ms level" (Value.i n)) = _
    rw [upsert_eq_self (lookupV_upsert_self info "ms level" (Value.i n))]

/-- A successful normalization factors through a final `ms level` coercion. -/
theorem normalizeInfo_ok_last (info out : Info) (h : normalizeInfo info = .ok out) :
    ∃ j, msLevelCoerce j = .ok out := by
  unfold normalizeInfo at h
  by_cases hb : hasKey info "binary" = true
  · rw [hb, if_pos rfl] at h
    obtain ⟨i1, hpb, h⟩ := except_bind_ok h
    simp only [] at h
    by_cases hd : hasKey i1 "binaryDataArray" = true
    · rw [hd, if_pos rfl] at h
      obtain ⟨i2, hfl, h⟩ := except_bind_ok h
      exact ⟨i2, h⟩
    · rw [Bool.not_eq_true] at hd
      rw [hd, if_neg (by decide), exceptOkBind] at h
      exact ⟨i1, h⟩
  · rw [Bool.not_eq_true] at hb
    rw [hb, if_neg (by decide), exceptOkBind] at h
    simp only [] at h
    by_cases hd : hasKey info "binaryDataArray" = true
    · rw [hd, if_pos rfl] at h
      obtain ⟨i2, hfl, h⟩ := except_bind_ok h
      exact ⟨i2, h⟩
    · rw [Bool.not_eq_true] at hd
      rw [hd, if_neg (by decide), exceptOkBind] at h
      exact ⟨info, h⟩

/-- C5 (amended): re-applying the normalizer to a successful output that
carries no `'binary'` and no `'binaryDataArray'` key is a no-op.  The
last-resort fallback (line 168) violates the unamended claim: it stores the
decoded array under `'binary'`, and a second application of the normalizer
to that output fails — see the counterexample. -/
theorem C5_second_application (info out : Info)
    (h1 : normalizeInfo info = .ok out)
    (h2 : hasKey out "binary" = false)
    (h3 : hasKey out "binaryDataArray" = false) :
    normalizeInfo out = .ok out := by
  obtain ⟨j, hj⟩ := normalizeInfo_ok_last info out h1
  have hstable := msLevel_stable j out hj
  unfold normalizeInfo
  rw [h2, if_neg (by decide), exceptOkBind]
  simp only []
  rw [h3, if_neg (by decide), exceptOkBind]
  exact hstable

/-- C5 witness: normalizing a plain record and re-applying the normalizer
to the result is a no-op. -/
theorem C5_witness :
    normalizeInfo [("id", .s "a"), ("ms level", .i 2)] = .ok [("id", .s "a"), ("ms level", .i 2)] := by
  exact C5_second_application [("id", .s "a"), ("ms level", .s "2")]
    [("id", .s "a"), ("ms level", .i 2)] (by rfl) (by rfl) (by rfl)

/-- C5 counterexample: a mapping resolved through the last-resort fallback
produces an output that still contains a `'binary'` key (now holding the
decoded array), and applying the normalizer to that output is not a no-op —
it dies with `UnboundLocalError` (the type tags were consumed by the first
pass). -/
theorem C5_counterexample :
    normalizeInfo [("binary", .s "AAAAAAAAAAE="), ("64-bit float", .s ""), ("no compression", .s "")]
      = .ok [("binary", Value.arr .f64 [72057594037927936])] ∧
    hasKey [("binary", Value.arr .f64 [72057594037927936])] "binary" = true ∧
    normalizeInfo [("binary", Value.arr .f64 [72057594037927936])] = .error .unboundLocalError := by
  exact ⟨by rfl, by rfl, by rfl⟩

/-- `truthyD` agrees with `truthy` whenever the latter succeeds. -/
theorem truthyD_of_truthy {v : Value} {b : Bool} (h : truthy v = .ok b) : truthyD v = b := by
  simp [truthyD, h]

/-- The key loop of lines 152–155 computes the first falsy `' array'` key. -/
theorem goSelLoop_eq : ∀ (info : Info),
    (∀ p ∈ info, endsWithArray p.1 = true → ∃ b, truthy p.2 = .ok b) →
    goSelLoop info = .ok (firstFalsyArrayKey info) := by
  intro info h
  induction info with
  | nil => rfl
  | cons p rest ih =>
    obtain ⟨k, v⟩ := p
    have ih' := ih (fun q hq => h q (by simp [hq]))
    by_cases he : endsWithArray k = true
    · obtain ⟨b, hb⟩ := h (k, v) (by simp) he
      have htd := truthyD_of_truthy hb
      cases b with
      | true =>
        have hspec : firstFalsyArrayKey ((k, v) :: rest) = firstFalsyArrayKey rest := by
          unfold firstFalsyArrayKey
          rw [List.find?_cons_of_neg _ (by simp [he, htd])]
        rw [hspec, ← ih']
        simp only [goSelLoop, he, if_true, eq_self_iff_true, ite_true, hb, exceptOkBind]
      | false =>
        have hspec : firstFalsyArrayKey ((k, v) :: rest) = some k := by
          unfold firstFalsyArrayKey
          rw [List.find?_cons_of_pos _ (by simp [he, htd])]
          rfl
        rw [hspec]
        simp only [goSelLoop, he, if_true, eq_self_iff_true, ite_true, hb, exceptOkBind,
          Bool.false_eq_true, if_false]
    · have he' : endsWithArray k = false := by simpa using he
      have hspec : firstFalsyArrayKey ((k, v) :: rest) = firstFalsyArrayKey rest := by
        unfold firstFalsyArrayKey
        rw [List.find?_cons_of_neg _ (by simp [he'])]
      rw [hspec, ← ih']
      simp only [goSelLoop, he', Bool.false_eq_true, if_false]

/-- The `'name'`-list scan of lines 159–165 computes the first `' array'` entry. -/
theorem nameScanArr_eq : ∀ (vs : List Value), (∀ v ∈ vs, ∃ u, v = .s u) →
    nameScanArr vs = .ok (vs.findSome?
      (fun v => match v with | .s u => if endsWithArray u then some u else none | _ => none)) := by
  intro vs h
  induction vs with
  | nil => rfl
  | cons v rest ih =>
    obtain ⟨u, rfl⟩ := h v (by simp)
    by_cases he : endsWithArray u = true
    · simp [nameScanArr, List.findSome?_cons, he]
    · have he' : endsWithArray u = false := by simpa using he
      simp only [nameScanArr, he', Bool.false_eq_true, if_false, List.findSome?_cons]
      exact ih (fun w hw => h w (by simp [hw]))

/-- C6 (amended): whenever the truthiness tests of the `' array'`-suffixed
values succeed and the `'name'` list (if one is present) contains only
strings, the array-key selection of lines 152–168 computes exactly the
spec-side selection — with the first branch guarded by "at least one key
ending in `' array'` with a falsy value; the first such key in insertion
order wins", not by the claim's "exactly one".  On a mapping with two falsy
`' array'` keys the two readings disagree: see the counterexample. -/
theorem C6_selection (info : Info) (array : Value)
    (h1 : ∀ p ∈ info, endsWithArray p.1 = true → ∃ b, truthy p.2 = .ok b)
    (h2 : ∀ vs, lookupV info "name" = some (.lst vs) → ∀ v ∈ vs, ∃ u, v = .s u) :
    selectArrayKey info array = .ok (selectArrayKeySpec info array) := by
  unfold selectArrayKey selectArrayKeySpec
  rw [goSelLoop_eq info h1, exceptOkBind]
  cases hf : firstFalsyArrayKey info with
  | some k => rfl
  | none =>
    cases hn : lookupV info "name" with
    | none => simp [nameArrayEntrySpec, hn]
    | some v =>
      cases v with
      | lst vs =>
        show (nameScanArr vs >>= fun r =>
            match r with
            | some u => Except.ok [(u, array)]
            | none => Except.ok (upsert info "binary" array)) =
          Except.ok (match nameArrayEntrySpec info with
            | some u => [(u, array)]
            | none => upsert info "binary" array)
        rw [nameScanArr_eq vs (h2 vs hn), exceptOkBind]
        have hspec : nameArrayEntrySpec info = vs.findSome?
            (fun v => match v with | .s u => if endsWithArray u then some u else none | _ => none) := by
          simp [nameArrayEntrySpec, hn]
        rw [hspec]
        cases vs.findSome?
            (fun v => match v with | .s u => if endsWithArray u then some u else none | _ => none) with
        | some u => rfl
        | none => rfl
      | s u => simp [nameArrayEntrySpec, hn]
      | i n => simp [nameArrayEntrySpec, hn]
      | arr dt bits => simp [nameArrayEntrySpec, hn]
      | dct d => simp [nameArrayEntrySpec, hn]

/-- C6 witness: one falsy `' array'` key, one unrelated key — the code and
the spec-side selection agree. -/
theorem C6_witness :
    selectArrayKey [("other", .s "v"), ("m/z array", .s "")] (.arr .f64 [5])
      = .ok (selectArrayKeySpec [("other", .s "v"), ("m/z array", .s "")] (.arr .f64 [5])) := by
  refine C6_selection [("other", .s "v"), ("m/z array", .s "")] (.arr .f64 [5]) ?_ ?_
  · intro p hp he
    simp only [List.mem_cons, List.not_mem_nil, or_false] at hp
    rcases hp with rfl | rfl
    · exact absurd he (by decide)
    · exact ⟨false, rfl⟩
  · intro vs hvs
    rw [show lookupV [("other", Value.s "v"), ("m/z array", Value.s "")] "name" = none from rfl] at hvs
    simp at hvs

/-- C6 counterexample: a mapping with *two* falsy `' array'` keys (so not
"exactly one") and no `'name'` list.  The claim's reading predicts the
last-resort fallback (mapping kept, array stored under `'binary'`); the
code replaces the whole mapping with the first such key. -/
theorem C6_counterexample :
    normalizeInfo [("binary", .s ""), ("64-bit float", .s ""), ("no compression", .s ""),
        ("m/z array", .s ""), ("intensity array", .s "")]
      = .ok [("m/z array", Value.arr .f64 [])] ∧
    hasKey [("m/z array", Value.arr .f64 [])] "binary" = false ∧
    hasKey [("m/z array", Value.arr .f64 [])] "intensity array" = false := by
  exact ⟨by rfl, by rfl, by rfl⟩
